import Mathlib

/-!
Shallow embedding of the `pictobox` byte-stream classes:
`StreamOut` (src/src/stream-out.ts) and `StreamIn` (src/unnamed/part_000).

Both classes are thin wrappers over Node.js `Buffer`; the embedding models a
`Buffer` as a `List (Fin 256)` and reproduces the Node primitives the two
classes call (`subarray`, `alloc`, `concat`, the fixed-width `readX`/`writeX`
accessors with their `ERR_OUT_OF_RANGE` checks).  JavaScript numbers that
reach the buffer accessors are modelled as `ℚ` for write values (exact for
every input used here; Node range-checks the value and then truncates it
toward zero when storing) and as `ℤ` for positions and lengths.

Mutation is modelled by explicit state passing: an operation that can throw
returns the state paired with `Option BufErr`; on a throw the returned state
is the receiver unchanged, mirroring that the JS exception fires before any
field of `this` is assigned.
-/

namespace Pictobox

/-- A byte, as stored in a Node `Buffer` / `Uint8Array` cell. -/
abbrev Byte := Fin 256

/-- The one error class Node's checked `Buffer` accessors throw:
`RangeError [ERR_OUT_OF_RANGE]`. -/
inductive BufErr where
  | outOfRange
  deriving DecidableEq, Repr

/-- ECMAScript relative-index normalisation used by
`%TypedArray%.prototype.subarray`: a negative index counts from the end, and
the result clamps into `[0, length]`. -/
def clampIdx (len : ℕ) (i : Int) : Int :=
  if i < 0 then max ((len : Int) + i) 0 else min i (len : Int)

/-- Node `buf.subarray(start, end)` (ECMAScript `%TypedArray%.prototype.subarray`):
both indices are normalised by `clampIdx`, and an empty view results when the
clamped start is at or past the clamped end. -/
def subarray (b : List Byte) (start fin : Int) : List Byte :=
  (b.drop (clampIdx b.length start).toNat).take
    ((clampIdx b.length fin) - (clampIdx b.length start)).toNat

/-- JavaScript `ToIntegerOrInfinity` on an exact rational: truncation toward
zero, as applied when a number is stored into a `Uint8Array` cell or fed to
`>>>`. -/
def jsTrunc (q : ℚ) : ℤ :=
  if q < 0 then -⌊-q⌋ else ⌊q⌋

/-- JavaScript `ToUint32` of an exact rational: truncate toward zero, then
reduce modulo `2^32`.  This is what `value >>> n` applies to `value` before
shifting. -/
def toUint32 (q : ℚ) : ℕ :=
  ((jsTrunc q) % (2 ^ 32 : ℤ)).toNat

/-- Storage of a natural into one `Uint8Array` cell: reduction modulo 256. -/
def natByte (n : ℕ) : Byte :=
  ⟨n % 256, Nat.mod_lt _ (by norm_num)⟩

/-- Node `Buffer.alloc(size)`: `size` zero-filled bytes; a negative size
throws `ERR_OUT_OF_RANGE` before any buffer exists. -/
def bufferAlloc (size : Int) : Except BufErr (List Byte) :=
  if size < 0 then .error .outOfRange
  else .ok (List.replicate size.toNat (0 : Byte))

/-! ### Node `Buffer` fixed-width write accessors

Each mirrors Node's `writeU_IntN` helpers: `checkInt` rejects a value above
the maximum or below the minimum with `ERR_OUT_OF_RANGE` (non-integers inside
the range pass and are truncated at store time), then the bytes are stored
cell by cell, little- or big-endian. -/

/-- `buf.writeUInt8(value)` on a fresh 1-byte buffer: the byte it produces. -/
def bufWriteUint8 (value : ℚ) : Except BufErr (List Byte) :=
  if value > 255 ∨ value < 0 then .error .outOfRange
  else .ok [natByte (toUint32 value)]

/-- `buf.writeUInt16LE(value)` on a fresh 2-byte buffer. -/
def bufWriteUint16LE (value : ℚ) : Except BufErr (List Byte) :=
  if value > 65535 ∨ value < 0 then .error .outOfRange
  else
    let u := toUint32 value
    .ok [natByte u, natByte (u / 2 ^ 8)]

/-- `buf.writeUInt32LE(value)` on a fresh 4-byte buffer. -/
def bufWriteUint32LE (value : ℚ) : Except BufErr (List Byte) :=
  if value > 4294967295 ∨ value < 0 then .error .outOfRange
  else
    let u := toUint32 value
    .ok [natByte u, natByte (u / 2 ^ 8), natByte (u / 2 ^ 16), natByte (u / 2 ^ 24)]

/-- `buf.writeInt32LE(value)` on a fresh 4-byte buffer: same stores as the
unsigned variant, range check `[-2^31, 2^31 - 1]`. -/
def bufWriteInt32LE (value : ℚ) : Except BufErr (List Byte) :=
  if value > 2147483647 ∨ value < -2147483648 then .error .outOfRange
  else
    let u := toUint32 value
    .ok [natByte u, natByte (u / 2 ^ 8), natByte (u / 2 ^ 16), natByte (u / 2 ^ 24)]

/-- `buf.writeUInt16BE(value)` on a fresh 2-byte buffer. -/
def bufWriteUint16BE (value : ℚ) : Except BufErr (List Byte) :=
  if value > 65535 ∨ value < 0 then .error .outOfRange
  else
    let u := toUint32 value
    .ok [natByte (u / 2 ^ 8), natByte u]

/-- `buf.writeUInt32BE(value)` on a fresh 4-byte buffer. -/
def bufWriteUint32BE (value : ℚ) : Except BufErr (List Byte) :=
  if value > 4294967295 ∨ value < 0 then .error .outOfRange
  else
    let u := toUint32 value
    .ok [natByte (u / 2 ^ 24), natByte (u / 2 ^ 16), natByte (u / 2 ^ 8), natByte u]

/-! ### Node `Buffer` fixed-width read accessors

Each mirrors Node's readers at offset 0: the needed cells are fetched and, if
any is `undefined` (the buffer is shorter than the width), `boundsError`
throws `ERR_OUT_OF_RANGE`. -/

/-- `buf.readUInt8()`. -/
def bufReadUint8 : List Byte → Except BufErr ℕ
  | b0 :: _ => .ok b0.val
  | _ => .error .outOfRange

/-- `buf.readUInt16LE()`. -/
def bufReadUint16LE : List Byte → Except BufErr ℕ
  | b0 :: b1 :: _ => .ok (b0.val + 2 ^ 8 * b1.val)
  | _ => .error .outOfRange

/-- `buf.readUInt32LE()`. -/
def bufReadUint32LE : List Byte → Except BufErr ℕ
  | b0 :: b1 :: b2 :: b3 :: _ =>
      .ok (b0.val + 2 ^ 8 * b1.val + 2 ^ 16 * b2.val + 2 ^ 24 * b3.val)
  | _ => .error .outOfRange

/-- `buf.readInt32LE()`: Node computes `first + b1*2^8 + b2*2^16 + (last << 24)`,
the final shift a signed 32-bit one, so a top byte `≥ 128` contributes
`b3*2^24 - 2^32`. -/
def bufReadInt32LE : List Byte → Except BufErr ℤ
  | b0 :: b1 :: b2 :: b3 :: _ =>
      .ok ((b0.val : ℤ) + 2 ^ 8 * b1.val + 2 ^ 16 * b2.val +
        (if 128 ≤ b3.val then (b3.val : ℤ) * 2 ^ 24 - 2 ^ 32 else (b3.val : ℤ) * 2 ^ 24))
  | _ => .error .outOfRange

/-- `buf.readUInt16BE()`. -/
def bufReadUint16BE : List Byte → Except BufErr ℕ
  | b0 :: b1 :: _ => .ok (2 ^ 8 * b0.val + b1.val)
  | _ => .error .outOfRange

/-- `buf.readUInt32BE()`. -/
def bufReadUint32BE : List Byte → Except BufErr ℕ
  | b0 :: b1 :: b2 :: b3 :: _ =>
      .ok (2 ^ 24 * b0.val + 2 ^ 16 * b1.val + 2 ^ 8 * b2.val + b3.val)
  | _ => .error .outOfRange

/-! ### `StreamIn` (src/unnamed/part_000) -/

/-- The reader: a borrowed buffer and the mutable seek pointer `pos`. -/
structure StreamIn where
  buffer : List Byte
  pos : Int
  deriving DecidableEq, Repr

namespace StreamIn

/-- `new StreamIn(buffer)`: `pos` starts at 0. -/
def mk0 (buffer : List Byte) : StreamIn :=
  ⟨buffer, 0⟩

/-- `hasData()`: `this.pos < this.buffer.length`. -/
def hasData (s : StreamIn) : Bool :=
  s.pos < (s.buffer.length : Int)

/-- `size()`: `this.buffer.length`. -/
def size (s : StreamIn) : ℕ :=
  s.buffer.length

/-- `skip(length)`: `this.pos += length`. -/
def skip (s : StreamIn) (length : Int) : StreamIn :=
  { s with pos := s.pos + length }

/-- `seek(pos)`: `this.pos = pos`. -/
def seek (s : StreamIn) (pos : Int) : StreamIn :=
  { s with pos := pos }

/-- `readBytes(length)`: the subarray `[pos, pos+length)` of the buffer, then
`pos` advances by `length`. -/
def readBytes (s : StreamIn) (length : Int) : List Byte × StreamIn :=
  (subarray s.buffer s.pos (s.pos + length), { s with pos := s.pos + length })

/-- `readUint8()`: `this.readBytes(1).readUint8()`.  `readBytes` advances
`pos` before the decode can throw, so the state is advanced either way. -/
def readUint8 (s : StreamIn) : Except BufErr ℕ × StreamIn :=
  let r := s.readBytes 1
  (bufReadUint8 r.1, r.2)

/-- `readUint16LE()`: `this.readBytes(2).readUint16LE()`. -/
def readUint16LE (s : StreamIn) : Except BufErr ℕ × StreamIn :=
  let r := s.readBytes 2
  (bufReadUint16LE r.1, r.2)

/-- `readUint32LE()`: `this.readBytes(4).readUint32LE()`. -/
def readUint32LE (s : StreamIn) : Except BufErr ℕ × StreamIn :=
  let r := s.readBytes 4
  (bufReadUint32LE r.1, r.2)

/-- `readInt32LE()`: `this.readBytes(4).readInt32LE()`. -/
def readInt32LE (s : StreamIn) : Except BufErr ℤ × StreamIn :=
  let r := s.readBytes 4
  (bufReadInt32LE r.1, r.2)

/-- `readUint16BE()`: `this.readBytes(2).readUint16BE()`. -/
def readUint16BE (s : StreamIn) : Except BufErr ℕ × StreamIn :=
  let r := s.readBytes 2
  (bufReadUint16BE r.1, r.2)

/-- `readUint32BE()`: `this.readBytes(4).readUint32BE()`. -/
def readUint32BE (s : StreamIn) : Except BufErr ℕ × StreamIn :=
  let r := s.readBytes 4
  (bufReadUint32BE r.1, r.2)

end StreamIn

/-! ### `StreamOut` (src/src/stream-out.ts) -/

/-- The writer: an owned growable buffer and the mutable seek pointer `pos`. -/
structure StreamOut where
  buffer : List Byte
  pos : Int
  deriving DecidableEq, Repr

namespace StreamOut

/-- `new StreamOut()`: `Buffer.alloc(0)` and `pos = 0`. -/
def init : StreamOut :=
  ⟨[], 0⟩

/-- `bytes()`: the internal buffer. -/
def bytes (s : StreamOut) : List Byte :=
  s.buffer

/-- `size()`: `this.buffer.length`. -/
def size (s : StreamOut) : ℕ :=
  s.buffer.length

/-- `seek(pos)`: `this.pos = pos`. -/
def seek (s : StreamOut) (pos : Int) : StreamOut :=
  { s with pos := pos }

/-- `writeBytes(bytes)`: `Buffer.concat` of `subarray(0, pos)`, the new
bytes, and `subarray(pos)`; then `pos` advances by `bytes.length`. -/
def writeBytes (s : StreamOut) (bs : List Byte) : StreamOut :=
  let before := subarray s.buffer 0 s.pos
  let after := subarray s.buffer s.pos (s.buffer.length : Int)
  { buffer := before ++ bs ++ after, pos := s.pos + bs.length }

/-- `skip(length)`: `this.writeBytes(Buffer.alloc(length))`; `Buffer.alloc`
throws on a negative length before `this` is touched. -/
def skip (s : StreamOut) (length : Int) : StreamOut × Option BufErr :=
  match bufferAlloc length with
  | .error e => (s, some e)
  | .ok zs => (s.writeBytes zs, none)

/-- `writeUint8(uint8)`: encode into a fresh 1-byte buffer (which may throw,
leaving `this` unchanged), then `writeBytes`. -/
def writeUint8 (s : StreamOut) (uint8 : ℚ) : StreamOut × Option BufErr :=
  match bufWriteUint8 uint8 with
  | .error e => (s, some e)
  | .ok bs => (s.writeBytes bs, none)

/-- `writeUint16LE(uint16)`. -/
def writeUint16LE (s : StreamOut) (uint16 : ℚ) : StreamOut × Option BufErr :=
  match bufWriteUint16LE uint16 with
  | .error e => (s, some e)
  | .ok bs => (s.writeBytes bs, none)

/-- `writeUint32LE(uint32)`. -/
def writeUint32LE (s : StreamOut) (uint32 : ℚ) : StreamOut × Option BufErr :=
  match bufWriteUint32LE uint32 with
  | .error e => (s, some e)
  | .ok bs => (s.writeBytes bs, none)

/-- `writeInt32LE(int32)`. -/
def writeInt32LE (s : StreamOut) (int32 : ℚ) : StreamOut × Option BufErr :=
  match bufWriteInt32LE int32 with
  | .error e => (s, some e)
  | .ok bs => (s.writeBytes bs, none)

/-- `writeUint16BE(uint16)`. -/
def writeUint16BE (s : StreamOut) (uint16 : ℚ) : StreamOut × Option BufErr :=
  match bufWriteUint16BE uint16 with
  | .error e => (s, some e)
  | .ok bs => (s.writeBytes bs, none)

/-- `writeUint32BE(uint32)`. -/
def writeUint32BE (s : StreamOut) (uint32 : ℚ) : StreamOut × Option BufErr :=
  match bufWriteUint32BE uint32 with
  | .error e => (s, some e)
  | .ok bs => (s.writeBytes bs, none)

end StreamOut

/-! ### Facts about the `Buffer` primitives -/

lemma clampIdx_nonneg (len : ℕ) (i : ℤ) : 0 ≤ clampIdx len i := by
  unfold clampIdx
  split <;> omega

lemma clampIdx_le (len : ℕ) (i : ℤ) : clampIdx len i ≤ (len : ℤ) := by
  unfold clampIdx
  split <;> omega

lemma clampIdx_of_mem (len : ℕ) (i : ℤ) (h0 : 0 ≤ i) (h1 : i ≤ (len : ℤ)) :
    clampIdx len i = i := by
  unfold clampIdx
  split <;> omega

lemma clampIdx_of_ge (len : ℕ) (i : ℤ) (h : (len : ℤ) ≤ i) : clampIdx len i = len := by
  unfold clampIdx
  split <;> omega

lemma subarray_zero (b : List Byte) (p : ℤ) (h0 : 0 ≤ p) (h1 : p ≤ (b.length : ℤ)) :
    subarray b 0 p = b.take p.toNat := by
  unfold subarray
  rw [clampIdx_of_mem _ 0 le_rfl (by omega), clampIdx_of_mem _ p h0 h1]
  simp

lemma subarray_zero_ge (b : List Byte) (p : ℤ) (h : (b.length : ℤ) ≤ p) :
    subarray b 0 p = b := by
  unfold subarray
  rw [clampIdx_of_mem _ 0 le_rfl (by omega), clampIdx_of_ge _ p h]
  simp

lemma subarray_from (b : List Byte) (p : ℤ) (h0 : 0 ≤ p) :
    subarray b p (b.length : ℤ) = b.drop p.toNat := by
  unfold subarray
  rw [clampIdx_of_mem _ (b.length : ℤ) (by omega) le_rfl]
  rcases le_or_lt p (b.length : ℤ) with h1 | h1
  · rw [clampIdx_of_mem _ p h0 h1]
    apply List.take_of_length_le
    simp only [List.length_drop]
    omega
  · rw [clampIdx_of_ge _ p h1.le]
    have h2 : b.drop p.toNat = [] := List.drop_eq_nil_of_le (by omega)
    rw [h2]
    simp

lemma subarray_middle (pre enc post : List Byte) :
    subarray (pre ++ enc ++ post) (pre.length : ℤ)
      ((pre.length : ℤ) + (enc.length : ℤ)) = enc := by
  unfold subarray
  have hlen : (pre ++ enc ++ post).length = pre.length + enc.length + post.length := by
    simp
    omega
  rw [clampIdx_of_mem _ _ (by omega) (by rw [hlen]; push_cast; omega),
    clampIdx_of_mem _ _ (by omega) (by rw [hlen]; push_cast; omega)]
  have h1 : ((pre.length : ℤ)).toNat = pre.length := Int.toNat_natCast _
  have h2 : ((pre.length : ℤ) + (enc.length : ℤ) - (pre.length : ℤ)).toNat = enc.length := by
    omega
  rw [h1, h2, List.append_assoc, List.drop_left, List.take_left]

lemma subarray_tail (b : List Byte) (p n : ℤ) (h0 : 0 ≤ p) (h : (b.length : ℤ) ≤ p + n) :
    subarray b p (p + n) = b.drop p.toNat := by
  unfold subarray
  rw [clampIdx_of_ge _ (p + n) h]
  rcases le_or_lt p (b.length : ℤ) with h1 | h1
  · rw [clampIdx_of_mem _ p h0 h1]
    apply List.take_of_length_le
    simp only [List.length_drop]
    omega
  · rw [clampIdx_of_ge _ p h1.le]
    have h2 : b.drop p.toNat = [] := List.drop_eq_nil_of_le (by omega)
    rw [h2]
    simp

lemma subarray_length_lt (b : List Byte) (p w : ℤ) (hw : 0 < w)
    (h : (b.length : ℤ) < p + w) : ((subarray b p (p + w)).length : ℤ) < w := by
  unfold subarray
  simp only [List.length_take, List.length_drop]
  have h1 := clampIdx_nonneg b.length p
  have h2 := clampIdx_le b.length p
  have h3 := clampIdx_nonneg b.length (p + w)
  have h4 := clampIdx_le b.length (p + w)
  have key : clampIdx b.length (p + w) - clampIdx b.length p < w := by
    unfold clampIdx
    split_ifs <;> omega
  omega

lemma writeBytes_pos (s : StreamOut) (data : List Byte) :
    (s.writeBytes data).pos = s.pos + data.length := rfl

lemma writeBytes_eq (s : StreamOut) (data : List Byte) (h0 : 0 ≤ s.pos)
    (h1 : s.pos ≤ (s.size : ℤ)) :
    s.writeBytes data =
      ⟨s.buffer.take s.pos.toNat ++ data ++ s.buffer.drop s.pos.toNat,
        s.pos + data.length⟩ := by
  have h1' : s.pos ≤ (s.buffer.length : ℤ) := h1
  simp only [StreamOut.writeBytes]
  rw [subarray_zero _ _ h0 h1', subarray_from _ _ h0]

lemma writeBytes_size (s : StreamOut) (data : List Byte) :
    (s.writeBytes data).size = s.size + data.length := by
  simp only [StreamOut.writeBytes, StreamOut.size, List.length_append]
  unfold subarray
  simp only [List.length_take, List.length_drop]
  rw [clampIdx_of_mem s.buffer.length 0 le_rfl (by omega),
    clampIdx_of_mem s.buffer.length (s.buffer.length : ℤ) (by omega) le_rfl]
  have h1 := clampIdx_nonneg s.buffer.length s.pos
  have h2 := clampIdx_le s.buffer.length s.pos
  omega

lemma init_writeBytes_bytes (data : List Byte) :
    (StreamOut.init.writeBytes data).bytes = data := by
  simp [StreamOut.writeBytes, StreamOut.bytes, StreamOut.init, subarray, clampIdx]

/-! ### Encoding and decoding facts -/

lemma jsTrunc_natCast (v : ℕ) : jsTrunc (v : ℚ) = v := by
  unfold jsTrunc
  rw [if_neg (not_lt.mpr (by positivity))]
  exact Int.floor_natCast v

lemma jsTrunc_intCast (v : ℤ) : jsTrunc (v : ℚ) = v := by
  unfold jsTrunc
  split
  · have h : (-(v : ℚ)) = ((-v : ℤ) : ℚ) := by push_cast; ring
    rw [h, Int.floor_intCast]
    omega
  · exact Int.floor_intCast v

lemma toUint32_natCast (v : ℕ) (h : v < 2 ^ 32) : toUint32 (v : ℚ) = v := by
  unfold toUint32
  rw [jsTrunc_natCast]
  omega

lemma toUint32_intCast (v : ℤ) : toUint32 (v : ℚ) = (v % 2 ^ 32).toNat := by
  unfold toUint32
  rw [jsTrunc_intCast]

lemma bufWriteUint8_natCast (v : ℕ) (h : v < 2 ^ 8) :
    bufWriteUint8 (v : ℚ) = .ok [natByte v] := by
  have hneg : ¬((v : ℚ) > 255 ∨ (v : ℚ) < 0) := by
    push_neg
    exact ⟨by exact_mod_cast (by omega : v ≤ 255), by positivity⟩
  simp only [bufWriteUint8]
  rw [if_neg hneg, toUint32_natCast v (by omega)]

lemma bufWriteUint16LE_natCast (v : ℕ) (h : v < 2 ^ 16) :
    bufWriteUint16LE (v : ℚ) = .ok [natByte v, natByte (v / 2 ^ 8)] := by
  have hneg : ¬((v : ℚ) > 65535 ∨ (v : ℚ) < 0) := by
    push_neg
    exact ⟨by exact_mod_cast (by omega : v ≤ 65535), by positivity⟩
  simp only [bufWriteUint16LE]
  rw [if_neg hneg, toUint32_natCast v (by omega)]

lemma bufWriteUint16BE_natCast (v : ℕ) (h : v < 2 ^ 16) :
    bufWriteUint16BE (v : ℚ) = .ok [natByte (v / 2 ^ 8), natByte v] := by
  have hneg : ¬((v : ℚ) > 65535 ∨ (v : ℚ) < 0) := by
    push_neg
    exact ⟨by exact_mod_cast (by omega : v ≤ 65535), by positivity⟩
  simp only [bufWriteUint16BE]
  rw [if_neg hneg, toUint32_natCast v (by omega)]

lemma bufWriteUint32LE_natCast (v : ℕ) (h : v < 2 ^ 32) :
    bufWriteUint32LE (v : ℚ) =
      .ok [natByte v, natByte (v / 2 ^ 8), natByte (v / 2 ^ 16), natByte (v / 2 ^ 24)] := by
  have hneg : ¬((v : ℚ) > 4294967295 ∨ (v : ℚ) < 0) := by
    push_neg
    exact ⟨by exact_mod_cast (by omega : v ≤ 4294967295), by positivity⟩
  simp only [bufWriteUint32LE]
  rw [if_neg hneg, toUint32_natCast v (by omega)]

lemma bufWriteUint32BE_natCast (v : ℕ) (h : v < 2 ^ 32) :
    bufWriteUint32BE (v : ℚ) =
      .ok [natByte (v / 2 ^ 24), natByte (v / 2 ^ 16), natByte (v / 2 ^ 8), natByte v] := by
  have hneg : ¬((v : ℚ) > 4294967295 ∨ (v : ℚ) < 0) := by
    push_neg
    exact ⟨by exact_mod_cast (by omega : v ≤ 4294967295), by positivity⟩
  simp only [bufWriteUint32BE]
  rw [if_neg hneg, toUint32_natCast v (by omega)]

lemma bufWriteInt32LE_intCast (v : ℤ) (h1 : -2 ^ 31 ≤ v) (h2 : v < 2 ^ 31) :
    bufWriteInt32LE (v : ℚ) =
      .ok [natByte (v % 2 ^ 32).toNat, natByte ((v % 2 ^ 32).toNat / 2 ^ 8),
        natByte ((v % 2 ^ 32).toNat / 2 ^ 16), natByte ((v % 2 ^ 32).toNat / 2 ^ 24)] := by
  have hneg : ¬((v : ℚ) > 2147483647 ∨ (v : ℚ) < -2147483648) := by
    push_neg
    constructor
    · exact_mod_cast (by omega : v ≤ 2147483647)
    · exact_mod_cast (by omega : -2147483648 ≤ v)
  simp only [bufWriteInt32LE]
  rw [if_neg hneg, toUint32_intCast v]

lemma bufReadUint8_enc (v : ℕ) (h : v < 2 ^ 8) (rest : List Byte) :
    bufReadUint8 (natByte v :: rest) = .ok v := by
  simp only [bufReadUint8, natByte]
  congr 1
  omega

lemma bufReadUint16LE_enc (v : ℕ) (h : v < 2 ^ 16) (rest : List Byte) :
    bufReadUint16LE (natByte v :: natByte (v / 2 ^ 8) :: rest) = .ok v := by
  simp only [bufReadUint16LE, natByte]
  congr 1
  omega

lemma bufReadUint16BE_enc (v : ℕ) (h : v < 2 ^ 16) (rest : List Byte) :
    bufReadUint16BE (natByte (v / 2 ^ 8) :: natByte v :: rest) = .ok v := by
  simp only [bufReadUint16BE, natByte]
  congr 1
  omega

lemma bufReadUint32LE_enc (v : ℕ) (h : v < 2 ^ 32) (rest : List Byte) :
    bufReadUint32LE (natByte v :: natByte (v / 2 ^ 8) :: natByte (v / 2 ^ 16) ::
      natByte (v / 2 ^ 24) :: rest) = .ok v := by
  simp only [bufReadUint32LE, natByte]
  congr 1
  omega

lemma bufReadUint32BE_enc (v : ℕ) (h : v < 2 ^ 32) (rest : List Byte) :
    bufReadUint32BE (natByte (v / 2 ^ 24) :: natByte (v / 2 ^ 16) :: natByte (v / 2 ^ 8) ::
      natByte v :: rest) = .ok v := by
  simp only [bufReadUint32BE, natByte]
  congr 1
  omega

lemma bufReadInt32LE_enc (v : ℤ) (h1 : -2 ^ 31 ≤ v) (h2 : v < 2 ^ 31) (rest : List Byte) :
    bufReadInt32LE (natByte (v % 2 ^ 32).toNat :: natByte ((v % 2 ^ 32).toNat / 2 ^ 8) ::
      natByte ((v % 2 ^ 32).toNat / 2 ^ 16) :: natByte ((v % 2 ^ 32).toNat / 2 ^ 24) ::
      rest) = .ok v := by
  simp only [bufReadInt32LE, natByte]
  congr 1
  split <;> omega

lemma bufReadUint8_short (l : List Byte) (h : l.length < 1) :
    bufReadUint8 l = .error .outOfRange := by
  rcases l with _ | ⟨a, t⟩
  · rfl
  · simp at h

lemma bufReadUint16LE_short (l : List Byte) (h : l.length < 2) :
    bufReadUint16LE l = .error .outOfRange := by
  rcases l with _ | ⟨a, _ | ⟨b, t⟩⟩
  · rfl
  · rfl
  · simp only [List.length_cons] at h
    omega

lemma bufReadUint16BE_short (l : List Byte) (h : l.length < 2) :
    bufReadUint16BE l = .error .outOfRange := by
  rcases l with _ | ⟨a, _ | ⟨b, t⟩⟩
  · rfl
  · rfl
  · simp only [List.length_cons] at h
    omega

lemma bufReadUint32LE_short (l : List Byte) (h : l.length < 4) :
    bufReadUint32LE l = .error .outOfRange := by
  rcases l with _ | ⟨a, _ | ⟨b, _ | ⟨c, _ | ⟨d, t⟩⟩⟩⟩
  · rfl
  · rfl
  · rfl
  · rfl
  · simp only [List.length_cons] at h
    omega

lemma bufReadUint32BE_short (l : List Byte) (h : l.length < 4) :
    bufReadUint32BE l = .error .outOfRange := by
  rcases l with _ | ⟨a, _ | ⟨b, _ | ⟨c, _ | ⟨d, t⟩⟩⟩⟩
  · rfl
  · rfl
  · rfl
  · rfl
  · simp only [List.length_cons] at h
    omega

lemma bufReadInt32LE_short (l : List Byte) (h : l.length < 4) :
    bufReadInt32LE l = .error .outOfRange := by
  rcases l with _ | ⟨a, _ | ⟨b, _ | ⟨c, _ | ⟨d, t⟩⟩⟩⟩
  · rfl
  · rfl
  · rfl
  · rfl
  · simp only [List.length_cons] at h
    omega

/-! ### Claim theorems -/

/-- C5: `hasData()` returns `pos < size()` — true exactly while the cursor is
strictly before the end of the buffer, false exactly once it reaches (or
passes) the end.  It reads `pos` and the buffer length only; in the embedding
it is a pure function of the state. -/
theorem C5_hasData (s : StreamIn) :
    (s.hasData = true ↔ s.pos < (s.size : ℤ)) ∧
    (s.hasData = false ↔ ¬ s.pos < (s.size : ℤ)) := by
  unfold StreamIn.hasData StreamIn.size
  constructor <;> simp

/-- C8: `seek` on reader and writer stores the requested position
unconditionally — negative and out-of-range values included — and the
reader's `skip` adds any integer length, negative ones moving the cursor
backward; the buffer is untouched in every case. -/
theorem C8_seek_skip_unchecked (r : StreamIn) (w : StreamOut) (p len : ℤ) :
    (r.seek p).pos = p ∧ (r.seek p).buffer = r.buffer ∧
    (r.skip len).pos = r.pos + len ∧ (r.skip len).buffer = r.buffer ∧
    (w.seek p).pos = p ∧ (w.buffer = (w.seek p).buffer) :=
  ⟨rfl, rfl, rfl, rfl, rfl, rfl⟩

/-- C7: the writer's `skip(length)` with `length ≥ 0` delegates to
`writeBytes` on a zero-filled buffer of that length, so it grows `size()` by
`length` and advances `pos` by `length`; concretely `skip(3)` on a fresh
writer yields bytes `[0, 0, 0]` and `pos = 3`. -/
theorem C7_writer_skip (s : StreamOut) (len : ℤ) (h : 0 ≤ len) :
    s.skip len = (s.writeBytes (List.replicate len.toNat (0 : Byte)), none) ∧
    ((s.skip len).1.size : ℤ) = (s.size : ℤ) + len ∧
    (s.skip len).1.pos = s.pos + len ∧
    (StreamOut.init.skip 3).1.bytes = [(0 : Byte), 0, 0] ∧
    (StreamOut.init.skip 3).1.pos = 3 := by
  have halloc : bufferAlloc len = .ok (List.replicate len.toNat (0 : Byte)) := by
    unfold bufferAlloc
    rw [if_neg (by omega)]
  have hskip : s.skip len = (s.writeBytes (List.replicate len.toNat (0 : Byte)), none) := by
    unfold StreamOut.skip
    rw [halloc]
  refine ⟨hskip, ?_, ?_, by decide, by decide⟩
  · rw [hskip]
    rw [writeBytes_size s (List.replicate len.toNat (0 : Byte))]
    simp only [List.length_replicate]
    push_cast
    omega
  · rw [hskip]
    rw [writeBytes_pos s (List.replicate len.toNat (0 : Byte))]
    simp only [List.length_replicate]
    omega

lemma readback_view (s : StreamOut) (h0 : 0 ≤ s.pos) (h1 : s.pos ≤ (s.size : ℤ))
    (enc : List Byte) (w : ℤ) (hw : w = (enc.length : ℤ)) :
    (((StreamIn.mk0 (s.writeBytes enc).bytes).seek s.pos).readBytes w).1 = enc := by
  subst hw
  have h1' : s.pos ≤ (s.buffer.length : ℤ) := h1
  have hb := writeBytes_eq s enc h0 h1
  have hbytes : (s.writeBytes enc).bytes =
      s.buffer.take s.pos.toNat ++ enc ++ s.buffer.drop s.pos.toNat := by rw [hb]; rfl
  show subarray ((s.writeBytes enc).bytes) s.pos (s.pos + (enc.length : ℤ)) = enc
  rw [hbytes]
  set pre := s.buffer.take s.pos.toNat with hpre_def
  have hpre : (pre.length : ℤ) = s.pos := by
    rw [hpre_def]
    simp only [List.length_take]
    omega
  rw [← hpre]
  exact subarray_middle pre enc _

/-- C4: every reader operation advances `pos` by exactly the width it
consumes — `readBytes(n)` by `n`, the fixed-width reads by 1, 2 or 4 — with
no rollback on short reads (the decode can only fail after `readBytes` has
already moved the cursor); `writeBytes` advances the writer's `pos` by the
data length, and every fixed-width write that completes without a range
error advances it by its width. -/
theorem C4_cursor_advancement (r : StreamIn) (w : StreamOut) (n : ℤ)
    (data : List Byte) (v : ℚ) :
    (r.readBytes n).2.pos = r.pos + n ∧
    r.readUint8.2.pos = r.pos + 1 ∧
    r.readUint16LE.2.pos = r.pos + 2 ∧
    r.readUint16BE.2.pos = r.pos + 2 ∧
    r.readUint32LE.2.pos = r.pos + 4 ∧
    r.readUint32BE.2.pos = r.pos + 4 ∧
    r.readInt32LE.2.pos = r.pos + 4 ∧
    (w.writeBytes data).pos = w.pos + data.length ∧
    ((w.writeUint8 v).2 = none → (w.writeUint8 v).1.pos = w.pos + 1) ∧
    ((w.writeUint16LE v).2 = none → (w.writeUint16LE v).1.pos = w.pos + 2) ∧
    ((w.writeUint16BE v).2 = none → (w.writeUint16BE v).1.pos = w.pos + 2) ∧
    ((w.writeUint32LE v).2 = none → (w.writeUint32LE v).1.pos = w.pos + 4) ∧
    ((w.writeUint32BE v).2 = none → (w.writeUint32BE v).1.pos = w.pos + 4) ∧
    ((w.writeInt32LE v).2 = none → (w.writeInt32LE v).1.pos = w.pos + 4) := by
  refine ⟨rfl, rfl, rfl, rfl, rfl, rfl, rfl, writeBytes_pos w data,
    ?_, ?_, ?_, ?_, ?_, ?_⟩
  · intro hnone
    by_cases hc : (v > 255 ∨ v < 0)
    · exfalso
      unfold StreamOut.writeUint8 bufWriteUint8 at hnone
      rw [if_pos hc] at hnone
      simp at hnone
    · unfold StreamOut.writeUint8 bufWriteUint8
      rw [if_neg hc]
      simp [writeBytes_pos]
  · intro hnone
    by_cases hc : (v > 65535 ∨ v < 0)
    · exfalso
      unfold StreamOut.writeUint16LE bufWriteUint16LE at hnone
      rw [if_pos hc] at hnone
      simp at hnone
    · unfold StreamOut.writeUint16LE bufWriteUint16LE
      rw [if_neg hc]
      simp [writeBytes_pos]
  · intro hnone
    by_cases hc : (v > 65535 ∨ v < 0)
    · exfalso
      unfold StreamOut.writeUint16BE bufWriteUint16BE at hnone
      rw [if_pos hc] at hnone
      simp at hnone
    · unfold StreamOut.writeUint16BE bufWriteUint16BE
      rw [if_neg hc]
      simp [writeBytes_pos]
  · intro hnone
    by_cases hc : (v > 4294967295 ∨ v < 0)
    · exfalso
      unfold StreamOut.writeUint32LE bufWriteUint32LE at hnone
      rw [if_pos hc] at hnone
      simp at hnone
    · unfold StreamOut.writeUint32LE bufWriteUint32LE
      rw [if_neg hc]
      simp [writeBytes_pos]
  · intro hnone
    by_cases hc : (v > 4294967295 ∨ v < 0)
    · exfalso
      unfold StreamOut.writeUint32BE bufWriteUint32BE at hnone
      rw [if_pos hc] at hnone
      simp at hnone
    · unfold StreamOut.writeUint32BE bufWriteUint32BE
      rw [if_neg hc]
      simp [writeBytes_pos]
  · intro hnone
    by_cases hc : (v > 2147483647 ∨ v < -2147483648)
    · exfalso
      unfold StreamOut.writeInt32LE bufWriteInt32LE at hnone
      rw [if_pos hc] at hnone
      simp at hnone
    · unfold StreamOut.writeInt32LE bufWriteInt32LE
      rw [if_neg hc]
      simp [writeBytes_pos]

/-- C4 witness: `C4_cursor_advancement` on the reader `⟨[1, 2, 3], 0⟩` and a
fresh writer, with the `writeUint8 7` clause's no-error hypothesis discharged
concretely. -/
theorem C4_cursor_advancement_witness :
    (StreamOut.init.writeUint8 7).1.pos = StreamOut.init.pos + 1 :=
  (C4_cursor_advancement (StreamIn.mk0 [1, 2, 3]) StreamOut.init 5 [9] 7).2.2.2.2.2.2.2.2.1
    (by decide)

/-- C1: for each of the six supported width/order combinations, writing any
value of the representable range at a cursor position `0 ≤ pos ≤ size()` and
then reading it back with the matching reader at the same relative position
over the writer's `bytes()` yields the original value (and the write itself
raises no range error). -/
theorem C1_roundtrip (s : StreamOut) (h0 : 0 ≤ s.pos) (h1 : s.pos ≤ (s.size : ℤ)) :
    (∀ v : ℕ, v < 2 ^ 8 →
      (s.writeUint8 (v : ℚ)).2 = none ∧
      ((StreamIn.mk0 (s.writeUint8 (v : ℚ)).1.bytes).seek s.pos).readUint8.1 = .ok v) ∧
    (∀ v : ℕ, v < 2 ^ 16 →
      (s.writeUint16LE (v : ℚ)).2 = none ∧
      ((StreamIn.mk0 (s.writeUint16LE (v : ℚ)).1.bytes).seek s.pos).readUint16LE.1 = .ok v) ∧
    (∀ v : ℕ, v < 2 ^ 16 →
      (s.writeUint16BE (v : ℚ)).2 = none ∧
      ((StreamIn.mk0 (s.writeUint16BE (v : ℚ)).1.bytes).seek s.pos).readUint16BE.1 = .ok v) ∧
    (∀ v : ℕ, v < 2 ^ 32 →
      (s.writeUint32LE (v : ℚ)).2 = none ∧
      ((StreamIn.mk0 (s.writeUint32LE (v : ℚ)).1.bytes).seek s.pos).readUint32LE.1 = .ok v) ∧
    (∀ v : ℕ, v < 2 ^ 32 →
      (s.writeUint32BE (v : ℚ)).2 = none ∧
      ((StreamIn.mk0 (s.writeUint32BE (v : ℚ)).1.bytes).seek s.pos).readUint32BE.1 = .ok v) ∧
    (∀ v : ℤ, -2 ^ 31 ≤ v → v < 2 ^ 31 →
      (s.writeInt32LE (v : ℚ)).2 = none ∧
      ((StreamIn.mk0 (s.writeInt32LE (v : ℚ)).1.bytes).seek s.pos).readInt32LE.1 = .ok v) := by
  refine ⟨fun v hv => ?_, fun v hv => ?_, fun v hv => ?_, fun v hv => ?_, fun v hv => ?_,
    fun v hv1 hv2 => ?_⟩
  · have hw : s.writeUint8 (v : ℚ) = (s.writeBytes [natByte v], none) := by
      unfold StreamOut.writeUint8
      rw [bufWriteUint8_natCast v hv]
    rw [hw]
    refine ⟨rfl, ?_⟩
    simp only [StreamIn.readUint8]
    rw [readback_view s h0 h1 [natByte v] 1 (by simp)]
    exact bufReadUint8_enc v hv []
  · have hw : s.writeUint16LE (v : ℚ) =
        (s.writeBytes [natByte v, natByte (v / 2 ^ 8)], none) := by
      unfold StreamOut.writeUint16LE
      rw [bufWriteUint16LE_natCast v hv]
    rw [hw]
    refine ⟨rfl, ?_⟩
    simp only [StreamIn.readUint16LE]
    rw [readback_view s h0 h1 [natByte v, natByte (v / 2 ^ 8)] 2 (by simp)]
    exact bufReadUint16LE_enc v hv []
  · have hw : s.writeUint16BE (v : ℚ) =
        (s.writeBytes [natByte (v / 2 ^ 8), natByte v], none) := by
      unfold StreamOut.writeUint16BE
      rw [bufWriteUint16BE_natCast v hv]
    rw [hw]
    refine ⟨rfl, ?_⟩
    simp only [StreamIn.readUint16BE]
    rw [readback_view s h0 h1 [natByte (v / 2 ^ 8), natByte v] 2 (by simp)]
    exact bufReadUint16BE_enc v hv []
  · have hw : s.writeUint32LE (v : ℚ) =
        (s.writeBytes [natByte v, natByte (v / 2 ^ 8), natByte (v / 2 ^ 16),
          natByte (v / 2 ^ 24)], none) := by
      unfold StreamOut.writeUint32LE
      rw [bufWriteUint32LE_natCast v hv]
    rw [hw]
    refine ⟨rfl, ?_⟩
    simp only [StreamIn.readUint32LE]
    rw [readback_view s h0 h1
      [natByte v, natByte (v / 2 ^ 8), natByte (v / 2 ^ 16), natByte (v / 2 ^ 24)] 4 (by simp)]
    exact bufReadUint32LE_enc v hv []
  · have hw : s.writeUint32BE (v : ℚ) =
        (s.writeBytes [natByte (v / 2 ^ 24), natByte (v / 2 ^ 16), natByte (v / 2 ^ 8),
          natByte v], none) := by
      unfold StreamOut.writeUint32BE
      rw [bufWriteUint32BE_natCast v hv]
    rw [hw]
    refine ⟨rfl, ?_⟩
    simp only [StreamIn.readUint32BE]
    rw [readback_view s h0 h1
      [natByte (v / 2 ^ 24), natByte (v / 2 ^ 16), natByte (v / 2 ^ 8), natByte v] 4 (by simp)]
    exact bufReadUint32BE_enc v hv []
  · have hw : s.writeInt32LE (v : ℚ) =
        (s.writeBytes [natByte (v % 2 ^ 32).toNat, natByte ((v % 2 ^ 32).toNat / 2 ^ 8),
          natByte ((v % 2 ^ 32).toNat / 2 ^ 16), natByte ((v % 2 ^ 32).toNat / 2 ^ 24)],
          none) := by
      unfold StreamOut.writeInt32LE
      rw [bufWriteInt32LE_intCast v hv1 hv2]
    rw [hw]
    refine ⟨rfl, ?_⟩
    simp only [StreamIn.readInt32LE]
    have hview := readback_view s h0 h1
      [natByte (v % 2 ^ 32).toNat, natByte ((v % 2 ^ 32).toNat / 2 ^ 8),
        natByte ((v % 2 ^ 32).toNat / 2 ^ 16), natByte ((v % 2 ^ 32).toNat / 2 ^ 24)] 4
      (by simp)
    rw [hview]
    exact bufReadInt32LE_enc v hv1 hv2 []

/-- C1 witness: the 8-bit clause of `C1_roundtrip` on a fresh writer at
`v = 20`. -/
theorem C1_roundtrip_witness :
    (StreamOut.init.writeUint8 ((20 : ℕ) : ℚ)).2 = none ∧
    ((StreamIn.mk0 (StreamOut.init.writeUint8 ((20 : ℕ) : ℚ)).1.bytes).seek
      StreamOut.init.pos).readUint8.1 = .ok 20 :=
  (C1_roundtrip StreamOut.init (by decide) (by decide)).1 20 (by norm_num)

/-- C6: on a fresh writer `writeUint16LE(0x0fa0)` lays the bytes out as
`[0xa0, 0x0f]` and `writeUint16BE(0x0fa0)` as `[0x0f, 0xa0]`; in general a
16-bit value is laid out least-significant byte first by the LE writer and
most-significant byte first by the BE writer. -/
theorem C6_endianness :
    (StreamOut.init.writeUint16LE 4000).1.bytes = [(0xa0 : Byte), (0x0f : Byte)] ∧
    (StreamOut.init.writeUint16BE 4000).1.bytes = [(0x0f : Byte), (0xa0 : Byte)] ∧
    (∀ v : ℕ, v < 2 ^ 16 →
      (StreamOut.init.writeUint16LE (v : ℚ)).1.bytes = [natByte v, natByte (v / 2 ^ 8)] ∧
      (StreamOut.init.writeUint16BE (v : ℚ)).1.bytes = [natByte (v / 2 ^ 8), natByte v]) := by
  refine ⟨by decide, by decide, fun v hv => ⟨?_, ?_⟩⟩
  · unfold StreamOut.writeUint16LE
    rw [bufWriteUint16LE_natCast v hv]
    exact init_writeBytes_bytes _
  · unfold StreamOut.writeUint16BE
    rw [bufWriteUint16BE_natCast v hv]
    exact init_writeBytes_bytes _

/-- C6 witness: the general layout clause of `C6_endianness` instantiated at
`v = 4000`. -/
theorem C6_endianness_witness :
    (StreamOut.init.writeUint16LE ((4000 : ℕ) : ℚ)).1.bytes =
      [natByte 4000, natByte (4000 / 2 ^ 8)] :=
  (C6_endianness.2.2 4000 (by norm_num)).1

/-- C2: with `0 ≤ pos ≤ size()`, `writeBytes(data)` splices `data` into the
buffer at `pos` — the new buffer is `buffer[0:pos] ++ data ++ buffer[pos:]`,
every byte previously at or after `pos` reappears starting at
`pos + data.length`, and `pos` advances by exactly `data.length`. -/
theorem C2_writeBytes_insertion (s : StreamOut) (data : List Byte)
    (h0 : 0 ≤ s.pos) (h1 : s.pos ≤ (s.size : ℤ)) :
    (s.writeBytes data).buffer =
      s.buffer.take s.pos.toNat ++ data ++ s.buffer.drop s.pos.toNat ∧
    (s.writeBytes data).buffer.drop (s.pos.toNat + data.length) =
      s.buffer.drop s.pos.toNat ∧
    (s.writeBytes data).pos = s.pos + data.length := by
  have h1' : s.pos ≤ (s.buffer.length : ℤ) := h1
  have h := writeBytes_eq s data h0 h1
  have hbuf : (s.writeBytes data).buffer =
      s.buffer.take s.pos.toNat ++ data ++ s.buffer.drop s.pos.toNat := by rw [h]
  have hpos : (s.writeBytes data).pos = s.pos + data.length := by rw [h]
  refine ⟨hbuf, ?_, hpos⟩
  rw [hbuf]
  have hlen : s.pos.toNat + data.length = (s.buffer.take s.pos.toNat ++ data).length := by
    simp only [List.length_append, List.length_take]
    omega
  rw [hlen, List.drop_left]

/-- C2 witness: `C2_writeBytes_insertion` on the writer `⟨[1, 2, 3], 1⟩` and
data `[9]`. -/
theorem C2_writeBytes_insertion_witness :
    ((⟨[1, 2, 3], 1⟩ : StreamOut).writeBytes [(9 : Byte)]).buffer =
      ([(1 : Byte), 2, 3]).take ((1 : ℤ)).toNat ++ [(9 : Byte)] ++
        ([(1 : Byte), 2, 3]).drop ((1 : ℤ)).toNat :=
  (C2_writeBytes_insertion ⟨[1, 2, 3], 1⟩ [9] (by decide) (by decide)).1

/-- C9: when `pos` is already past `size()`, both `subarray` slices clamp to
the whole buffer and the empty tail, so `writeBytes(data)` appends `data` at
the end with no padding; `size()` grows by `data.length`, `pos` still
advances by `data.length`, and the overshoot `pos - size()` is unchanged. -/
theorem C9_writeBytes_past_end (s : StreamOut) (data : List Byte)
    (h : (s.size : ℤ) < s.pos) :
    (s.writeBytes data).buffer = s.buffer ++ data ∧
    (s.writeBytes data).size = s.size + data.length ∧
    (s.writeBytes data).pos = s.pos + data.length ∧
    (s.writeBytes data).pos - ((s.writeBytes data).size : ℤ) = s.pos - (s.size : ℤ) := by
  have h' : (s.buffer.length : ℤ) < s.pos := h
  have h0 : 0 ≤ s.pos := by omega
  have hbuf : (s.writeBytes data).buffer = s.buffer ++ data := by
    simp only [StreamOut.writeBytes]
    rw [subarray_zero_ge _ _ (le_of_lt h'), subarray_from _ _ h0]
    have hnil : s.buffer.drop s.pos.toNat = [] := List.drop_eq_nil_of_le (by omega)
    rw [hnil]
    simp
  refine ⟨hbuf, writeBytes_size s data, writeBytes_pos s data, ?_⟩
  rw [writeBytes_pos, writeBytes_size]
  push_cast
  ring

/-- C9 witness: `C9_writeBytes_past_end` on the writer `⟨[7], 5⟩` (cursor 4
past the end) and data `[1, 2]`. -/
theorem C9_writeBytes_past_end_witness :
    ((⟨[7], 5⟩ : StreamOut).writeBytes [(1 : Byte), 2]).buffer = [(7 : Byte)] ++ [1, 2] :=
  (C9_writeBytes_past_end ⟨[7], 5⟩ [1, 2] (by decide)).1

/-- C7 witness: the general clauses of `C7_writer_skip` instantiated on a
fresh writer and length 3. -/
theorem C7_writer_skip_witness :
    StreamOut.init.skip 3 =
      (StreamOut.init.writeBytes (List.replicate (3 : ℤ).toNat (0 : Byte)), none) :=
  (C7_writer_skip StreamOut.init 3 (by decide)).1

/-- C3 counterexample: on the one-byte reader `[5]`, `readUint16LE()` does
not yield a numeric value derived from the truncated view — Node's
`Buffer.readUInt16LE` throws `ERR_OUT_OF_RANGE` on a buffer shorter than the
width, so the call raises a range error. -/
theorem C3_counterexample :
    ((StreamIn.mk0 [(5 : Byte)]).readUint16LE).1 = .error .outOfRange ∧
    ((StreamIn.mk0 [(5 : Byte)]).readUint16LE).2.pos = 2 := by
  constructor
  · rfl
  · rfl

/-- C3 (amended): `readBytes(length)` itself never fails — past the end it
returns the view silently truncated to the bytes remaining from `pos` — but
decoding such a truncated view with a fixed-width read raises a range error
(`ERR_OUT_OF_RANGE`) rather than returning a numeric value, the cursor having
already advanced. -/
theorem C3_short_read (s : StreamIn) (n : ℤ) :
    (0 ≤ s.pos → (s.size : ℤ) ≤ s.pos + n →
      (s.readBytes n).1 = s.buffer.drop s.pos.toNat) ∧
    ((s.size : ℤ) < s.pos + 1 → s.readUint8.1 = .error .outOfRange) ∧
    ((s.size : ℤ) < s.pos + 2 → s.readUint16LE.1 = .error .outOfRange) ∧
    ((s.size : ℤ) < s.pos + 2 → s.readUint16BE.1 = .error .outOfRange) ∧
    ((s.size : ℤ) < s.pos + 4 → s.readUint32LE.1 = .error .outOfRange) ∧
    ((s.size : ℤ) < s.pos + 4 → s.readUint32BE.1 = .error .outOfRange) ∧
    ((s.size : ℤ) < s.pos + 4 → s.readInt32LE.1 = .error .outOfRange) := by
  refine ⟨fun h0 hn => ?_, fun h => ?_, fun h => ?_, fun h => ?_, fun h => ?_,
    fun h => ?_, fun h => ?_⟩
  · have hn' : (s.buffer.length : ℤ) ≤ s.pos + n := hn
    simp only [StreamIn.readBytes]
    exact subarray_tail s.buffer s.pos n h0 hn'
  · have h' : (s.buffer.length : ℤ) < s.pos + 1 := h
    have hlen := subarray_length_lt s.buffer s.pos 1 (by norm_num) h'
    simp only [StreamIn.readUint8, StreamIn.readBytes]
    exact bufReadUint8_short _ (by omega)
  · have h' : (s.buffer.length : ℤ) < s.pos + 2 := h
    have hlen := subarray_length_lt s.buffer s.pos 2 (by norm_num) h'
    simp only [StreamIn.readUint16LE, StreamIn.readBytes]
    exact bufReadUint16LE_short _ (by omega)
  · have h' : (s.buffer.length : ℤ) < s.pos + 2 := h
    have hlen := subarray_length_lt s.buffer s.pos 2 (by norm_num) h'
    simp only [StreamIn.readUint16BE, StreamIn.readBytes]
    exact bufReadUint16BE_short _ (by omega)
  · have h' : (s.buffer.length : ℤ) < s.pos + 4 := h
    have hlen := subarray_length_lt s.buffer s.pos 4 (by norm_num) h'
    simp only [StreamIn.readUint32LE, StreamIn.readBytes]
    exact bufReadUint32LE_short _ (by omega)
  · have h' : (s.buffer.length : ℤ) < s.pos + 4 := h
    have hlen := subarray_length_lt s.buffer s.pos 4 (by norm_num) h'
    simp only [StreamIn.readUint32BE, StreamIn.readBytes]
    exact bufReadUint32BE_short _ (by omega)
  · have h' : (s.buffer.length : ℤ) < s.pos + 4 := h
    have hlen := subarray_length_lt s.buffer s.pos 4 (by norm_num) h'
    simp only [StreamIn.readInt32LE, StreamIn.readBytes]
    exact bufReadInt32LE_short _ (by omega)

/-- C3 witness: the `readBytes` truncation clause of `C3_short_read` on the
reader `⟨[5], 0⟩` asked for 2 bytes. -/
theorem C3_short_read_witness :
    ((StreamIn.mk0 [(5 : Byte)]).readBytes 2).1 =
      [(5 : Byte)].drop ((StreamIn.mk0 [(5 : Byte)]).pos).toNat :=
  (C3_short_read (StreamIn.mk0 [5]) 2).1 (by decide) (by decide)

/-- C10 counterexample: `writeUint8(3.5)` — a non-integer value — does not
raise a range error: Node's `checkInt` only rejects values above the maximum
or below the minimum, and the `Uint8Array` store truncates, so the byte 3 is
written and the cursor advances. -/
theorem C10_counterexample :
    (StreamOut.init.writeUint8 (7 / 2 : ℚ)).2 = none ∧
    (StreamOut.init.writeUint8 (7 / 2 : ℚ)).1.bytes = [(3 : Byte)] := by
  have htr : toUint32 (7 / 2 : ℚ) = 3 := by
    unfold toUint32 jsTrunc
    rw [if_neg (by norm_num)]
    norm_num
    decide
  have hw : StreamOut.init.writeUint8 (7 / 2 : ℚ) =
      (StreamOut.init.writeBytes [natByte 3], none) := by
    unfold StreamOut.writeUint8 bufWriteUint8
    rw [if_neg (by norm_num), htr]
  rw [hw]
  refine ⟨rfl, ?_⟩
  rw [init_writeBytes_bytes]
  decide

/-- C10 (amended): calling a fixed-width write with a value outside its
representable range raises a range error and leaves the writer's buffer and
`pos` unchanged, because the value is encoded into a fresh temporary buffer
before `writeBytes` is invoked; a non-integer value inside the range is
truncated and written without error. -/
theorem C10_write_range_error (s : StreamOut) (v : ℚ) :
    ((v > 255 ∨ v < 0) → s.writeUint8 v = (s, some .outOfRange)) ∧
    ((v > 65535 ∨ v < 0) →
      s.writeUint16LE v = (s, some .outOfRange) ∧
      s.writeUint16BE v = (s, some .outOfRange)) ∧
    ((v > 4294967295 ∨ v < 0) →
      s.writeUint32LE v = (s, some .outOfRange) ∧
      s.writeUint32BE v = (s, some .outOfRange)) ∧
    ((v > 2147483647 ∨ v < -2147483648) → s.writeInt32LE v = (s, some .outOfRange)) := by
  refine ⟨fun h => ?_, fun h => ⟨?_, ?_⟩, fun h => ⟨?_, ?_⟩, fun h => ?_⟩
  · unfold StreamOut.writeUint8 bufWriteUint8
    rw [if_pos h]
  · unfold StreamOut.writeUint16LE bufWriteUint16LE
    rw [if_pos h]
  · unfold StreamOut.writeUint16BE bufWriteUint16BE
    rw [if_pos h]
  · unfold StreamOut.writeUint32LE bufWriteUint32LE
    rw [if_pos h]
  · unfold StreamOut.writeUint32BE bufWriteUint32BE
    rw [if_pos h]
  · unfold StreamOut.writeInt32LE bufWriteInt32LE
    rw [if_pos h]

/-- C10 witness: `C10_write_range_error` at `writeUint8 300` on a fresh
writer — the failed call returns the writer unchanged. -/
theorem C10_write_range_error_witness :
    StreamOut.init.writeUint8 300 = (StreamOut.init, some BufErr.outOfRange) :=
  (C10_write_range_error StreamOut.init 300).1 (by norm_num)

end Pictobox
